import Mathlib

/-!
Verification of the Bareos core subsystems against their specification:
the bounded SPSC channel (core/src/lib/channel.h), the scoped file
descriptor and file-backed vector (core/src/stored/backends/dedup/util.h),
and the dedup volume configuration load/store (dedup_volume.cc).

The embedding is sequential: every operation is modelled as an atomic
state transformer that runs to completion.  Condition-variable waits are
modelled by enabledness predicates on traces; the mutex is invisible in
the run-to-completion semantics.  Machine integers (size_t) are modelled
as Nat with explicit reduction modulo 2^64 wherever the C++ arithmetic
can wrap.  Logging (Dmsg) has no observable effect and is omitted.
-/

set_option maxHeartbeats 1000000

/-- Width of size_t: all size_t arithmetic in the C++ source wraps modulo this. -/
def W64 : Nat := 2 ^ 64

/-! ## SPSC channel (core/src/lib/channel.h)

The shared block data<T> is data_s; the producer endpoint in<T> is in_s
and the consumer endpoint out<T> is out_s.  Each endpoint holds a
shared_ptr to the block; we pass the pointee as an explicit
Option (data_s α) argument, none standing for a null shared pointer.
Every operation returns none exactly when the C++ would dereference a
null shared pointer (which never happens for a live, non-closed
endpoint). -/

/-- Shared queue block, mirroring channel::data<T> (size, capacity, storage,
in_alive, out_alive; the mutex and condition variable have no sequential
content). -/
structure data_s (α : Type) where
  size : Nat
  capacity : Nat
  storage : List α
  in_alive : Bool
  out_alive : Bool
deriving DecidableEq

/-- Consumer endpoint fields of channel::out<T>. -/
structure out_s where
  read_pos : Nat
  old_size : Nat
  capacity : Nat
  closed : Bool
deriving DecidableEq

/-- Producer endpoint fields of channel::in<T>. -/
structure in_s where
  write_pos : Nat
  old_size : Nat
  capacity : Nat
  closed : Bool
deriving DecidableEq

/-- Default-constructed out<T>: null shared pointer, closed flag true. -/
def default_out : out_s := { read_pos := 0, old_size := 0, capacity := 0, closed := true }

/-- Default-constructed in<T>. -/
def default_in : in_s := { write_pos := 0, old_size := 0, capacity := 0, closed := true }

/-- channel::wrapping_inc. -/
def wrapping_inc (num max : Nat) : Nat :=
  let result := num + 1
  if result = max then 0 else result

/-- out<T>::out(shared): stores the pointer, adopts its capacity, clears
closed and sets out_alive under the lock. -/
def out_ctor (α : Type) (sd : data_s α) : out_s × data_s α :=
  ({ read_pos := 0, old_size := 0, capacity := sd.capacity, closed := false },
   { sd with out_alive := true })

/-- in<T>::in(shared). -/
def in_ctor (α : Type) (sd : data_s α) : in_s × data_s α :=
  ({ write_pos := 0, old_size := 0, capacity := sd.capacity, closed := false },
   { sd with in_alive := true })

/-- out<T>'s move assignment swaps all fields; moving out of a freshly
default-constructed target leaves the source with the default fields. -/
def out_move_ctor (src : out_s) : out_s × out_s := (src, default_out)

/-- in<T>'s move counterpart of out_move_ctor. -/
def in_move_ctor (src : in_s) : in_s × in_s := (src, default_in)

/-- out<T>::get().  The cv.wait is modelled by get_enabled on traces: this
function gives the post-wait behaviour.  The pre-lock fast path (taken
when the cached old_size is positive) moves the front slot out before
waiting; the code then returns that value even in the closing branch. -/
def out_get {α : Type} [Inhabited α] (o : out_s) (d : Option (data_s α)) :
    Option (out_s × Option (data_s α) × Option α) :=
  if o.closed then some (o, d, none)
  else
    match d with
    | none => none
    | some sd =>
      let fast : Option α :=
        if 0 < o.old_size then some (sd.storage.getD o.read_pos default) else none
      if 0 < sd.size then
        some ({ o with old_size := sd.size - 1,
                       read_pos := wrapping_inc o.read_pos o.capacity },
              some { sd with size := sd.size - 1 },
              some (fast.getD (sd.storage.getD o.read_pos default)))
      else
        some ({ o with old_size := 0, closed := true },
              some { sd with out_alive := false },
              fast)

/-- Drains count slots starting at pos, advancing with wrapping_inc; the
loop body of out<T>::get_all and try_get_all.  Returns the drained values
and the final read position. -/
def drain_slots {α : Type} [Inhabited α] (storage : List α) (pos cap : Nat) :
    Nat → List α × Nat
  | 0 => ([], pos)
  | n + 1 =>
    let v := storage.getD pos default
    let rest := drain_slots storage (wrapping_inc pos cap) cap n
    (v :: rest.1, rest.2)

/-- out<T>::get_all() post-wait behaviour. -/
def out_get_all {α : Type} [Inhabited α] (o : out_s) (d : Option (data_s α)) :
    Option (out_s × Option (data_s α) × Option (List α)) :=
  if o.closed then some (o, d, none)
  else
    match d with
    | none => none
    | some sd =>
      if 0 < sd.size then
        let res := drain_slots sd.storage o.read_pos o.capacity sd.size
        some ({ o with read_pos := res.2, old_size := 0 },
              some { sd with size := 0 },
              some res.1)
      else
        some ({ o with old_size := 0, closed := true },
              some { sd with out_alive := false },
              none)

/-- out<T>::try_get().  The lock is acquired with the blocking unique_lock
constructor (the source has a TODO asking whether try_lock should be
used), so owns_lock() always holds and the had_lock = false branch is
unreachable; there is no condition-variable wait. -/
def out_try_get {α : Type} [Inhabited α] (o : out_s) (d : Option (data_s α)) :
    Option (out_s × Option (data_s α) × Option α) :=
  if o.closed then some (o, d, none)
  else
    match d with
    | none => none
    | some sd =>
      let fast : Option α :=
        if 0 < o.old_size then some (sd.storage.getD o.read_pos default) else none
      if 0 < sd.size then
        some ({ o with old_size := sd.size - 1,
                       read_pos := wrapping_inc o.read_pos o.capacity },
              some { sd with size := sd.size - 1 },
              some (fast.getD (sd.storage.getD o.read_pos default)))
      else if !sd.in_alive then
        some ({ o with old_size := 0, closed := true },
              some { sd with out_alive := false },
              fast)
      else
        some (o, some sd, fast)

/-- out<T>::try_get_all(): like get_all but without the wait; on an empty
queue with a live producer it changes nothing and returns nullopt. -/
def out_try_get_all {α : Type} [Inhabited α] (o : out_s) (d : Option (data_s α)) :
    Option (out_s × Option (data_s α) × Option (List α)) :=
  if o.closed then some (o, d, none)
  else
    match d with
    | none => none
    | some sd =>
      if 0 < sd.size then
        let res := drain_slots sd.storage o.read_pos o.capacity sd.size
        some ({ o with read_pos := res.2, old_size := 0 },
              some { sd with size := 0 },
              some res.1)
      else if !sd.in_alive then
        some ({ o with old_size := 0, closed := true },
              some { sd with out_alive := false },
              none)
      else
        some (o, some sd, none)

/-- out<T>::close(): no-op when already closed, otherwise clears out_alive
under the lock and notifies. -/
def out_close {α : Type} (o : out_s) (d : Option (data_s α)) :
    Option (out_s × Option (data_s α)) :=
  if o.closed then some (o, d)
  else
    match d with
    | none => none
    | some sd => some ({ o with closed := true }, some { sd with out_alive := false })

/-- out<T>::~out(): closes only when the shared pointer is non-null. -/
def out_dtor {α : Type} (o : out_s) (d : Option (data_s α)) :
    Option (out_s × Option (data_s α)) :=
  match d with
  | none => some (o, none)
  | some sd => out_close o (some sd)

/-- in<T>::put(const T&) post-wait behaviour.  When the cached old_size is
below the endpoint capacity the value is stored into storage[write_pos]
before the lock is taken; the publication (size increment, cache refresh,
write_pos advance) happens after the wait. -/
def in_put {α : Type} (i : in_s) (d : Option (data_s α)) (v : α) :
    Option (in_s × Option (data_s α) × Bool) :=
  if i.closed then some (i, d, false)
  else
    match d with
    | none => none
    | some sd =>
      let fast : Bool := decide (i.old_size < i.capacity)
      let sd1 := if fast then { sd with storage := sd.storage.set i.write_pos v } else sd
      if sd1.out_alive then
        let sd2 := if fast then sd1 else { sd1 with storage := sd1.storage.set i.write_pos v }
        let sd3 := { sd2 with size := sd2.size + 1 }
        some ({ i with old_size := sd3.size,
                       write_pos := wrapping_inc i.write_pos i.capacity },
              some sd3, true)
      else
        some ({ i with old_size := i.capacity, closed := true }, some sd1, false)

/-- in<T>::close(). -/
def in_close {α : Type} (i : in_s) (d : Option (data_s α)) :
    Option (in_s × Option (data_s α)) :=
  if i.closed then some (i, d)
  else
    match d with
    | none => none
    | some sd => some ({ i with closed := true }, some { sd with in_alive := false })

/-- in<T>::~in(). -/
def in_dtor {α : Type} (i : in_s) (d : Option (data_s α)) :
    Option (in_s × Option (data_s α)) :=
  match d with
  | none => some (i, none)
  | some sd => in_close i (some sd)

/-- channel::CreateBufferedChannel<T>(capacity): promotes a zero capacity
to one (with a warning), allocates the shared block whose storage holds
capacity default-constructed slots, then constructs the in endpoint and
the out endpoint on it; the pair is returned by move, which leaves the
observable endpoint fields unchanged. -/
def CreateBufferedChannel (α : Type) [Inhabited α] (capacity : Nat) :
    data_s α × in_s × out_s :=
  let cap := if capacity = 0 then 1 else capacity
  let shared : data_s α :=
    { size := 0, capacity := cap, storage := List.replicate cap default,
      in_alive := false, out_alive := false }
  let ir := in_ctor α shared
  let orr := out_ctor α ir.2
  (orr.2, ir.1, orr.1)

/-! ## Trace semantics for one producer and one consumer

A chan_sys bundles the shared block with the two live endpoints produced
by CreateBufferedChannel.  Each trace operation runs one call to
completion; an operation is enabled when its cv.wait predicate already
holds (or the call returns without waiting), so traces contain only
calls that complete. -/

/-- System state: the shared block and the two endpoints holding it. -/
structure chan_sys (α : Type) where
  sd : data_s α
  inp : in_s
  outp : out_s
deriving DecidableEq

/-- Trace operations for C2: producer put, consumer get, and endpoint closes. -/
inductive chan_op (α : Type) where
  | put (v : α)
  | get
  | close_in
  | close_out
deriving DecidableEq

/-- put completes immediately when the endpoint is closed; otherwise its
cv.wait predicate (size < capacity, or the consumer is dead) must hold.
The wait predicate reads the endpoint's capacity field. -/
def put_enabled {α : Type} (s : chan_sys α) : Bool :=
  s.inp.closed || decide (s.sd.size < s.inp.capacity) || !s.sd.out_alive

/-- get completes immediately when closed; otherwise its cv.wait predicate
(size > 0, or the producer is dead) must hold. -/
def get_enabled {α : Type} (s : chan_sys α) : Bool :=
  s.outp.closed || decide (0 < s.sd.size) || !s.sd.in_alive

/-- Enabledness of a trace operation; close never waits. -/
def op_enabled {α : Type} (s : chan_sys α) : chan_op α → Bool
  | .put _ => put_enabled s
  | .get => get_enabled s
  | .close_in => true
  | .close_out => true

/-- Runs one operation to completion.  Returns the new system state, the
values successfully put by the step, and the values returned by gets of
the step.  The wildcard branches cover only the null-shared-pointer
results, which cannot occur for a live channel. -/
def chan_step {α : Type} [Inhabited α] (s : chan_sys α) : chan_op α → chan_sys α × List α × List α
  | .put v =>
    match in_put s.inp (some s.sd) v with
    | some (i', some sd', true) => (⟨sd', i', s.outp⟩, [v], [])
    | some (i', some sd', false) => (⟨sd', i', s.outp⟩, [], [])
    | _ => (s, [], [])
  | .get =>
    match out_get s.outp (some s.sd) with
    | some (o', some sd', some v) => (⟨sd', s.inp, o'⟩, [], [v])
    | some (o', some sd', none) => (⟨sd', s.inp, o'⟩, [], [])
    | _ => (s, [], [])
  | .close_in =>
    match in_close s.inp (some s.sd) with
    | some (i', some sd') => (⟨sd', i', s.outp⟩, [], [])
    | _ => (s, [], [])
  | .close_out =>
    match out_close s.outp (some s.sd) with
    | some (o', some sd') => (⟨sd', s.inp, o'⟩, [], [])
    | _ => (s, [], [])

/-- A trace is valid when every operation is enabled in the state it runs in. -/
def valid_trace {α : Type} [Inhabited α] (s : chan_sys α) : List (chan_op α) → Bool
  | [] => true
  | op :: rest => op_enabled s op && valid_trace (chan_step s op).1 rest

/-- Runs a trace, accumulating the successfully put values and the values
returned by gets, in order. -/
def chan_run {α : Type} [Inhabited α] (s : chan_sys α) :
    List (chan_op α) → chan_sys α × List α × List α
  | [] => (s, [], [])
  | op :: rest =>
    let one := chan_step s op
    let rec_ := chan_run one.1 rest
    (rec_.1, one.2.1 ++ rec_.2.1, one.2.2 ++ rec_.2.2)

/-- The system state reached by CreateBufferedChannel. -/
def init_sys (α : Type) [Inhabited α] (capacity : Nat) : chan_sys α :=
  let c := CreateBufferedChannel α capacity
  ⟨c.1, c.2.1, c.2.2⟩

/-- Slots of the ring read cyclically starting at rp. -/
def ring_list {α : Type} [Inhabited α] (storage : List α) (rp cap : Nat) (count : Nat) : List α :=
  (List.range count).map (fun k => storage.getD ((rp + k) % cap) default)

/-- Values put but not yet got: the occupied ring segment
[read_pos, read_pos + size) mod capacity. -/
def chan_pending {α : Type} [Inhabited α] (s : chan_sys α) : List α :=
  ring_list s.sd.storage s.outp.read_pos s.sd.capacity s.sd.size

/-- State invariant of a live channel: positive capacity, storage of
exactly capacity slots, the ring relation between the positions and the
size, agreement of the endpoint capacity caches, and the two size-cache
inequalities (the producer's cache never undercounts, the consumer's
never overcounts). -/
def chan_inv {α : Type} (s : chan_sys α) : Prop :=
  0 < s.sd.capacity ∧
  s.sd.storage.length = s.sd.capacity ∧
  s.sd.size ≤ s.sd.capacity ∧
  s.outp.read_pos < s.sd.capacity ∧
  s.inp.write_pos = (s.outp.read_pos + s.sd.size) % s.sd.capacity ∧
  s.inp.capacity = s.sd.capacity ∧
  s.outp.capacity = s.sd.capacity ∧
  s.sd.size ≤ s.inp.old_size ∧
  s.outp.old_size ≤ s.sd.size

/-! ## raii_fd (core/src/stored/backends/dedup/util.h)

The holder's observable state is the file descriptor and the sticky
error bit.  Each operation takes the result of its underlying syscall
as an explicit argument (an Int, negative on failure), so every possible
kernel outcome is covered. -/

/-- Observable state of dedup::util::raii_fd (flags and mode never
influence behaviour after construction). -/
structure raii_fd_s where
  fd : Int
  error : Bool
deriving DecidableEq

/-- raii_fd::raii_fd(path, flags, mode): adopts the open(2) result; the
error bit starts clear. -/
def raii_open (open_res : Int) : raii_fd_s := { fd := open_res, error := false }

/-- raii_fd::is_ok(). -/
def raii_is_ok (r : raii_fd_s) : Bool := !(r.fd < 0 || r.error)

/-- raii_fd::write(data, size) given the write(2) result res: a negative
result or a short count sets the sticky error bit and returns false. -/
def raii_write (r : raii_fd_s) (res : Int) (size : Nat) : raii_fd_s × Bool :=
  if res < 0 then ({ r with error := true }, false)
  else if res.toNat ≠ size then ({ r with error := true }, false)
  else (r, true)

/-- raii_fd::read(data, size) given the read(2) result. -/
def raii_read (r : raii_fd_s) (res : Int) (size : Nat) : raii_fd_s × Bool :=
  if res < 0 then ({ r with error := true }, false)
  else if res.toNat ≠ size then ({ r with error := true }, false)
  else (r, true)

/-- raii_fd::seek(where) given the lseek(2) result: a negative result
returns false WITHOUT touching the error bit; otherwise the returned
offset is compared against the requested one. -/
def raii_seek (r : raii_fd_s) (res : Int) (where_ : Nat) : raii_fd_s × Bool :=
  if res < 0 then (r, false)
  else (r, decide (res.toNat = where_))

/-- raii_fd::resize(new_size) given the ftruncate(2) result; no error bit. -/
def raii_resize (r : raii_fd_s) (res : Int) : raii_fd_s × Bool :=
  (r, decide (res = 0))

/-- raii_fd::size_then_reset() given the results of the two lseek(2)
calls; either failing sets the sticky error bit. -/
def raii_size_then_reset (r : raii_fd_s) (res_end res_set : Int) :
    raii_fd_s × Option Nat :=
  if res_end < 0 then ({ r with error := true }, none)
  else if res_set ≠ 0 then ({ r with error := true }, none)
  else (r, some res_end.toNat)

/-! ## Idealised kernel file and the composed descriptor

file_based_vector is verified over an idealised POSIX file: lseek to any
absolute size_t offset succeeds at that offset, write always transfers
all requested bytes (extending the file), read transfers
min(requested, len - pos) bytes, ftruncate always succeeds.  The
syscall results produced here are fed to the raii_fd operations above. -/

/-- Kernel-side file state: length and seek position in bytes.  Byte
contents are not modelled; no claim under verification depends on them. -/
structure posix_file where
  len : Nat
  pos : Nat
deriving DecidableEq

/-- lseek(fd, w, SEEK_SET) on the idealised file. -/
def sys_lseek_set (f : posix_file) (w : Nat) : posix_file × Int :=
  ({ f with pos := w }, (w : Int))

/-- write(fd, buf, n) on the idealised file: transfers all n bytes. -/
def sys_write (f : posix_file) (n : Nat) : posix_file × Int :=
  ({ len := max f.len (f.pos + n), pos := f.pos + n }, (n : Int))

/-- read(fd, buf, n): transfers the bytes available up to n. -/
def sys_read (f : posix_file) (n : Nat) : posix_file × Int :=
  let r := min n (f.len - f.pos)
  ({ f with pos := f.pos + r }, (r : Int))

/-- ftruncate(fd, n). -/
def sys_ftruncate (f : posix_file) (n : Nat) : posix_file × Int :=
  ({ f with len := n }, 0)

/-- A raii_fd together with the kernel file it designates. -/
structure fd_file where
  rf : raii_fd_s
  pf : posix_file
deriving DecidableEq

/-- raii_fd::seek against the idealised kernel. -/
def fd_seek (x : fd_file) (w : Nat) : fd_file × Bool :=
  let s := sys_lseek_set x.pf w
  let r := raii_seek x.rf s.2 w
  (⟨r.1, s.1⟩, r.2)

/-- raii_fd::write of n bytes against the idealised kernel. -/
def fd_write (x : fd_file) (n : Nat) : fd_file × Bool :=
  let s := sys_write x.pf n
  let r := raii_write x.rf s.2 n
  (⟨r.1, s.1⟩, r.2)

/-- raii_fd::read of n bytes against the idealised kernel. -/
def fd_read (x : fd_file) (n : Nat) : fd_file × Bool :=
  let s := sys_read x.pf n
  let r := raii_read x.rf s.2 n
  (⟨r.1, s.1⟩, r.2)

/-- raii_fd::resize against the idealised kernel. -/
def fd_resize (x : fd_file) (n : Nat) : fd_file × Bool :=
  let s := sys_ftruncate x.pf n
  let r := raii_resize x.rf s.2
  (⟨r.1, s.1⟩, r.2)

/-! ## file_based_vector<T> (core/src/stored/backends/dedup/util.h)

The element type enters only through sizeof(T), passed as the first
argument es of every operation.  All size_t arithmetic of the source is
reproduced modulo W64.  The ASSERT macro is modelled as a no-op (its
release-build behaviour).  read returns only success or null; the array
contents are not modelled. -/

/-- State of dedup::util::file_based_vector<T>. -/
structure fbv where
  used : Nat
  capacity : Nat
  iter : Nat
  capacity_chunk_size : Nat
  file : fd_file
  error : Bool
deriving DecidableEq

/-- file_based_vector<T>::reserve_at(at, count): rejects a wrapping
at + count, flags at > used as an internal error, grows the file in
chunk multiples when at + count exceeds the capacity, and bumps used. -/
def fbv_reserve_at (es : Nat) (s : fbv) (at_ count : Nat) : fbv × Option Nat :=
  if s.error then (s, none)
  else if (at_ + count) % W64 < at_ then (s, none)
  else if at_ > s.used then ({ s with error := true }, none)
  else
    let need := (at_ + count) % W64
    if need > s.capacity then
      let delta := need - s.capacity
      let num_new_items :=
        (delta + s.capacity_chunk_size - 1) % W64 / s.capacity_chunk_size
          * s.capacity_chunk_size % W64
      let new_cap := (s.capacity + num_new_items) % W64
      if new_cap < need then (s, none)
      else
        let fr := fd_resize s.file (new_cap * es % W64)
        if !fr.2 then ({ s with file := fr.1, error := true }, none)
        else ({ s with file := fr.1, capacity := new_cap, used := max s.used need },
              some at_)
    else ({ s with used := max s.used need }, some at_)

/-- file_based_vector<T>::reserve(count): reserve_at at used, then set
iter from the used member, which reserve_at has already advanced. -/
def fbv_reserve (es : Nat) (s : fbv) (count : Nat) : fbv × Option Nat :=
  let r := fbv_reserve_at es s s.used count
  match r.2 with
  | some st => ({ r.1 with iter := r.1.used }, some st)
  | none => (r.1, none)

/-- file_based_vector<T>::write_at(start, arr, count): seek to the start
element, write the payload, seek back to iter. -/
def fbv_write_at (es : Nat) (s : fbv) (start count : Nat) : fbv × Option Nat :=
  if s.error then (s, none)
  else if start > s.used then (s, none)
  else
    let k1 := fd_seek s.file (es * start % W64)
    if !k1.2 then ({ s with file := k1.1, error := true }, none)
    else
      let k2 := fd_write k1.1 (count * es % W64)
      if !k2.2 then ({ s with file := k2.1, error := true }, none)
      else
        let k3 := fd_seek k2.1 (es * s.iter % W64)
        if !k3.2 then ({ s with file := k3.1, error := true }, none)
        else ({ s with file := k3.1 }, some start)

/-- file_based_vector<T>::write(arr, count): reserve at iter, pre-advance
iter, delegate to write_at, restore iter on failure. -/
def fbv_write (es : Nat) (s : fbv) (count : Nat) : fbv × Option Nat :=
  let r := fbv_reserve_at es s s.iter count
  match r.2 with
  | none => (r.1, none)
  | some _ =>
    let old_iter := r.1.iter
    let s2 := { r.1 with iter := (r.1.iter + count) % W64 }
    let w := fbv_write_at es s2 old_iter count
    match w.2 with
    | none => ({ w.1 with iter := old_iter }, none)
    | some _ => w

/-- file_based_vector<T>::read_at(start, count): bounds-check against
used (with wrapping size_t sum), seek, read, seek back to iter.  The
Bool result stands for the nullable unique_ptr: true = non-null. -/
def fbv_read_at (es : Nat) (s : fbv) (start count : Nat) : fbv × Bool :=
  if s.error then (s, false)
  else if (start + count) % W64 > s.used then (s, false)
  else
    let k1 := fd_seek s.file (es * start % W64)
    if !k1.2 then ({ s with file := k1.1, error := true }, false)
    else
      let k2 := fd_read k1.1 (count * es % W64)
      if !k2.2 then ({ s with file := k2.1, error := true }, false)
      else
        let k3 := fd_seek k2.1 (es * s.iter % W64)
        if !k3.2 then ({ s with file := k3.1, error := true }, false)
        else ({ s with file := k3.1 }, true)

/-- file_based_vector<T>::read(count): pre-advance iter, delegate to
read_at, restore iter on failure. -/
def fbv_read (es : Nat) (s : fbv) (count : Nat) : fbv × Bool :=
  if s.error then (s, false)
  else
    let old_iter := s.iter
    let s2 := { s with iter := (s.iter + count) % W64 }
    let r := fbv_read_at es s2 old_iter count
    if !r.2 then ({ r.1 with iter := old_iter }, false)
    else r

/-! ## Dedup volume configuration (dedup_volume.cc)

The sidecar codec (config::to_bytes / from_bytes) and the volume class
declaration live in dedup headers that are not part of the sources under
verification; load_config is therefore modelled over the parsed form:
its byte-reading and parsing phase is abstracted as an
Option loaded_config argument (none covering an unreadable sidecar and a
parse failure), and the compile-time header sizes are a parameter.  The
validation and insertion logic follows dedup_volume.cc line by line. -/

/-- Record key (VolSessionId, VolSessionTime, FileIndex, Stream); field
widths never matter because the fields are only copied and compared. -/
structure record_key where
  VolSessionId : Nat
  VolSessionTime : Nat
  FileIndex : Nat
  Stream : Nat
deriving DecidableEq

/-- Cursor of an in-progress record inside a data file, dedup::write_loc. -/
structure write_loc where
  file_index : Nat
  current : Nat
  end_ : Nat
deriving DecidableEq

/-- Modelled from the spec: one parsed unfinished-record row of the
sidecar (config::loaded_unfinished_record); the codec that produces it
is not among the sources. -/
structure loaded_unfinished_record where
  VolSessionId : Nat
  VolSessionTime : Nat
  FileIndex : Nat
  Stream : Nat
  DataIdx : Nat
  file_offset : Nat
  size : Nat
deriving DecidableEq

/-- Modelled from the spec: the general-info header carrying the four
on-disk element sizes. -/
structure loaded_general_info where
  block_header_size : Nat
  record_header_size : Nat
  dedup_block_header_size : Nat
  dedup_record_header_size : Nat
deriving DecidableEq

/-- Modelled from the spec: a block-file or record-file section. -/
structure loaded_file_section where
  begin_ : Nat
  end_ : Nat
  path : String
deriving DecidableEq

/-- Modelled from the spec: a data-file section. -/
structure loaded_data_section where
  index : Nat
  blocksize : Nat
  path : String
  end_ : Nat
deriving DecidableEq

/-- Modelled from the spec: the parsed sidecar (config::loaded_config). -/
structure loaded_config where
  info : loaded_general_info
  blockfiles : List loaded_file_section
  recordfiles : List loaded_file_section
  datafiles : List loaded_data_section
  unfinished : List loaded_unfinished_record
deriving DecidableEq

/-- The volume's unfinished_records map, as an association list with
unique keys; insertion order stands in for the unordered_map's bucket
order, which the source never observes. -/
abbrev umap : Type := List (record_key × write_loc)

/-- Key-membership test of the unfinished_records map. -/
def umap_contains (m : umap) (k : record_key) : Bool :=
  m.any (fun p => decide (p.1 = k))

/-- unordered_map::emplace(k, v): inserts only when the key is absent and
reports whether it inserted. -/
def umap_emplace (m : umap) (k : record_key) (v : write_loc) : umap × Bool :=
  if umap_contains m k then (m, false) else (m ++ [(k, v)], true)

/-- Decoding of one sidecar row inside volume::load_config: the key is the
four ids and the write_loc is (DataIdx, file_offset, file_offset + size),
the sum taken in size_t. -/
def decode_unfinished (r : loaded_unfinished_record) : record_key × write_loc :=
  (⟨r.VolSessionId, r.VolSessionTime, r.FileIndex, r.Stream⟩,
   ⟨r.DataIdx, r.file_offset, (r.file_offset + r.size) % W64⟩)

/-- Encoding of one live entry inside volume::write_current_config: the
row carries (key, loc.file_index, loc.current, loc.end - loc.current),
the difference taken in size_t. -/
def encode_unfinished (k : record_key) (l : write_loc) : loaded_unfinished_record :=
  ⟨k.VolSessionId, k.VolSessionTime, k.FileIndex, k.Stream,
   l.file_index, l.current, (l.end_ + W64 - l.current) % W64⟩

/-- The insertion loop of volume::load_config: emplace each decoded row
into the live map, stopping with failure at the first duplicate key.
The map retains the rows inserted before the failure, exactly as the
in-place mutation of the source does. -/
def load_config_insert : List loaded_unfinished_record → umap → umap × Bool
  | [], m => (m, true)
  | r :: rest, m =>
    let kv := decode_unfinished r
    let e := umap_emplace m kv.1 kv.2
    if e.2 then load_config_insert rest e.1 else (e.1, false)

/-- Observable volume state for load_config: the adopted configuration,
the unfinished_records map and the volume error bit. -/
structure volume_s where
  config : loaded_config
  unfinished_records : umap
  error : Bool
deriving DecidableEq

/-- volume::load_config.  parsed is the outcome of reading and parsing
the sidecar (none: unreadable file or parse error); my_info holds the
running binary's four compile-time header sizes.  Validation: exactly
one block file, exactly one record file, header sizes equal to the
binary's; then the insertion loop; only full success replaces config. -/
def load_config (my_info : loaded_general_info) (v : volume_s)
    (parsed : Option loaded_config) : volume_s × Bool :=
  match parsed with
  | none => (v, false)
  | some lc =>
    if lc.blockfiles.length ≠ 1 then (v, false)
    else if lc.recordfiles.length ≠ 1 then (v, false)
    else if lc.info.block_header_size ≠ my_info.block_header_size ∨
            lc.info.dedup_block_header_size ≠ my_info.dedup_block_header_size then
      (v, false)
    else if lc.info.record_header_size ≠ my_info.record_header_size ∨
            lc.info.dedup_record_header_size ≠ my_info.dedup_record_header_size then
      (v, false)
    else
      match load_config_insert lc.unfinished v.unfinished_records with
      | (m', true) => ({ v with config := lc, unfinished_records := m' }, true)
      | (m', false) => ({ v with unfinished_records := m' }, false)

/-! ## Theorems -/

/-- C9: CreateBufferedChannel(capacity) yields a shared block of capacity
max(capacity, 1) (a request of 0 is promoted to 1), and at the moment the
pair is returned both in_alive and out_alive hold, each endpoint holding
the block un-closed. -/
theorem C9_create_channel_capacity_alive (α : Type) [Inhabited α] (capacity : Nat) :
    (CreateBufferedChannel α capacity).1.capacity = max capacity 1 ∧
    (CreateBufferedChannel α capacity).1.in_alive = true ∧
    (CreateBufferedChannel α capacity).1.out_alive = true ∧
    (CreateBufferedChannel α capacity).2.1.closed = false ∧
    (CreateBufferedChannel α capacity).2.2.closed = false := by
  refine ⟨?_, rfl, rfl, rfl, rfl⟩
  show (if capacity = 0 then 1 else capacity) = max capacity 1
  split <;> omega

/-- C10: on a default-constructed (equivalently, moved-from) endpoint the
closed flag is true and the shared pointer is null; get, try_get,
get_all, try_get_all return nullopt, put returns false, close and the
destructor are no-ops, and none of these dereferences the shared pointer
(the result is defined for d = none as well, with d returned
untouched). -/
theorem C10_closed_endpoint_ops (α : Type) [Inhabited α] (d : Option (data_s α)) (v : α) :
    out_get default_out d = some (default_out, d, (none : Option α)) ∧
    out_try_get default_out d = some (default_out, d, (none : Option α)) ∧
    out_get_all default_out d = some (default_out, d, (none : Option (List α))) ∧
    out_try_get_all default_out d = some (default_out, d, (none : Option (List α))) ∧
    in_put default_in d v = some (default_in, d, false) ∧
    out_close default_out d = some (default_out, d) ∧
    in_close default_in d = some (default_in, d) ∧
    out_dtor default_out (none : Option (data_s α)) = some (default_out, none) ∧
    in_dtor default_in (none : Option (data_s α)) = some (default_in, none) ∧
    (∀ o : out_s, (out_move_ctor o).2 = default_out) ∧
    (∀ i : in_s, (in_move_ctor i).2 = default_in) :=
  ⟨rfl, rfl, rfl, rfl, rfl, rfl, rfl, rfl, rfl, fun _ => rfl, fun _ => rfl⟩

/-- C4 counterexample: a negative lseek observed in seek() makes seek
return false but does NOT set the sticky error bit, so is_ok() still
returns true afterwards, contradicting the claim that a negative lseek
in seek() makes every subsequent is_ok() return false. -/
theorem C4_seek_counterexample :
    (raii_seek { fd := 3, error := false } (-1) 5).2 = false ∧
    raii_is_ok (raii_seek { fd := 3, error := false } (-1) 5).1 = true := by
  exact ⟨rfl, rfl⟩

/-- C4 amended: the error bit is sticky (no operation ever clears it or
revives a bad fd), and it is set by a short or failed write, a short or
failed read, an initial open failure, and a negative lseek inside
size_then_reset; seek() reports a negative lseek through its return
value only, leaving the holder's state untouched. -/
theorem C4_sticky_error (r : raii_fd_s) (res res2 : Int) (size w : Nat) :
    (raii_is_ok r = false → raii_is_ok (raii_write r res size).1 = false) ∧
    (raii_is_ok r = false → raii_is_ok (raii_read r res size).1 = false) ∧
    (raii_is_ok r = false → raii_is_ok (raii_seek r res w).1 = false) ∧
    (raii_is_ok r = false → raii_is_ok (raii_resize r res).1 = false) ∧
    (raii_is_ok r = false → raii_is_ok (raii_size_then_reset r res res2).1 = false) ∧
    ((raii_write r res size).2 = false → raii_is_ok (raii_write r res size).1 = false) ∧
    ((raii_read r res size).2 = false → raii_is_ok (raii_read r res size).1 = false) ∧
    (res < 0 → raii_is_ok (raii_size_then_reset r res res2).1 = false) ∧
    (res < 0 → raii_is_ok (raii_open res) = false) ∧
    (res < 0 → raii_seek r res w = (r, false)) := by
  unfold raii_is_ok raii_write raii_read raii_seek raii_resize raii_size_then_reset raii_open
  refine ⟨?_, ?_, ?_, ?_, ?_, ?_, ?_, ?_, ?_, ?_⟩ <;>
    · intro h
      first
      | (split_ifs <;> simp_all)
      | simp_all

/-- C4 witness: concrete instances of the amended theorem: a short write
(6 of 8 bytes) on a healthy holder flips is_ok to false, and a negative
lseek in seek() leaves the holder equal to its prior state. -/
theorem C4_witness :
    ((raii_write { fd := 3, error := false } 6 8).2 = false ∧
      raii_is_ok (raii_write { fd := 3, error := false } 6 8).1 = false) ∧
    ((-1 : Int) < 0 ∧
      raii_seek { fd := 3, error := false } (-1) 5 = ({ fd := 3, error := false }, false)) :=
  ⟨⟨by decide, (C4_sticky_error { fd := 3, error := false } 6 0 8 5).2.2.2.2.2.1 (by decide)⟩,
   ⟨by decide, (C4_sticky_error { fd := 3, error := false } (-1) 0 8 5).2.2.2.2.2.2.2.2.2 (by decide)⟩⟩

/-- The insertion loop only ever appends to the live map: whatever the
outcome, the prior map is an initial segment of the resulting one. -/
lemma load_config_insert_extends (rows : List loaded_unfinished_record) (m : umap) :
    ∃ t, (load_config_insert rows m).1 = m ++ t := by
  induction rows generalizing m with
  | nil => exact ⟨[], by simp [load_config_insert]⟩
  | cons r rest ih =>
    by_cases h : umap_contains m (decode_unfinished r).1
    · exact ⟨[], by simp [load_config_insert, umap_emplace, h]⟩
    · obtain ⟨t, ht⟩ :=
        ih (m ++ [((decode_unfinished r).1, (decode_unfinished r).2)])
      refine ⟨((decode_unfinished r).1, (decode_unfinished r).2) :: t, ?_⟩
      simp only [load_config_insert, umap_emplace, h, Bool.false_eq_true,
        if_false, if_true, ht, List.append_assoc, List.singleton_append]

/-- C1 counterexample: a sidecar that passes all validation but carries
the same unfinished key twice makes load_config fail, yet the volume's
unfinished_records map is no longer what it was before the call: the
row preceding the duplicate stays inserted. -/
theorem C1_counterexample :
    (load_config ⟨1, 2, 3, 4⟩
      ⟨⟨⟨1, 2, 3, 4⟩, [], [], [], []⟩, [], false⟩
      (some ⟨⟨1, 2, 3, 4⟩, [⟨0, 1024, "b"⟩], [⟨0, 256, "r"⟩], [],
             [⟨1, 1, 1, 1, 0, 0, 0⟩, ⟨1, 1, 1, 1, 0, 0, 0⟩]⟩)).2 = false ∧
    (load_config ⟨1, 2, 3, 4⟩
      ⟨⟨⟨1, 2, 3, 4⟩, [], [], [], []⟩, [], false⟩
      (some ⟨⟨1, 2, 3, 4⟩, [⟨0, 1024, "b"⟩], [⟨0, 256, "r"⟩], [],
             [⟨1, 1, 1, 1, 0, 0, 0⟩, ⟨1, 1, 1, 1, 0, 0, 0⟩]⟩)).1.unfinished_records
      ≠ ([] : umap) := by
  constructor
  · decide
  · decide

/-- C1 amended: on any load_config failure the volume's config and error
bit are untouched and load_config returns false; the failure paths up to
and including the header checks also leave unfinished_records untouched,
but a duplicate-key failure keeps the rows inserted before the duplicate
(the prior map survives only as an initial segment).  Only on success is
the config replaced by the parsed one. -/
theorem C1_load_config_failure_frame (my_info : loaded_general_info) (v : volume_s)
    (parsed : Option loaded_config) :
    ((load_config my_info v parsed).2 = false →
      (load_config my_info v parsed).1.config = v.config ∧
      (load_config my_info v parsed).1.error = v.error ∧
      ∃ t, (load_config my_info v parsed).1.unfinished_records
            = v.unfinished_records ++ t) ∧
    ((load_config my_info v parsed).2 = true →
      parsed = some (load_config my_info v parsed).1.config) := by
  unfold load_config
  match parsed with
  | none => exact ⟨fun _ => ⟨rfl, rfl, ⟨[], by simp⟩⟩, fun h => by simp at h⟩
  | some lc =>
    dsimp only
    split_ifs with h1 h2 h3 h4
    · exact ⟨fun _ => ⟨rfl, rfl, ⟨[], by simp⟩⟩, fun h => by simp at h⟩
    · exact ⟨fun _ => ⟨rfl, rfl, ⟨[], by simp⟩⟩, fun h => by simp at h⟩
    · exact ⟨fun _ => ⟨rfl, rfl, ⟨[], by simp⟩⟩, fun h => by simp at h⟩
    · exact ⟨fun _ => ⟨rfl, rfl, ⟨[], by simp⟩⟩, fun h => by simp at h⟩
    · have hext := load_config_insert_extends lc.unfinished v.unfinished_records
      split
      next m' heq =>
        exact ⟨fun h => by simp at h, fun _ => rfl⟩
      next m' heq =>
        refine ⟨fun _ => ⟨rfl, rfl, ?_⟩, fun h => by simp at h⟩
        obtain ⟨t, ht⟩ := hext
        exact ⟨t, by rw [heq] at ht; exact ht⟩

/-- C1 witness: the amended theorem applied to the duplicate-key input of
the counterexample, its failure premise discharged concretely. -/
theorem C1_witness :
    (load_config ⟨1, 2, 3, 4⟩
      ⟨⟨⟨1, 2, 3, 4⟩, [], [], [], []⟩, [], false⟩
      (some ⟨⟨1, 2, 3, 4⟩, [⟨0, 1024, "b"⟩], [⟨0, 256, "r"⟩], [],
             [⟨1, 1, 1, 1, 0, 0, 0⟩, ⟨1, 1, 1, 1, 9, 7, 5⟩]⟩)).1.config
      = (⟨⟨1, 2, 3, 4⟩, [], [], [], []⟩ : loaded_config) ∧
    ∃ t, (load_config ⟨1, 2, 3, 4⟩
      ⟨⟨⟨1, 2, 3, 4⟩, [], [], [], []⟩, [], false⟩
      (some ⟨⟨1, 2, 3, 4⟩, [⟨0, 1024, "b"⟩], [⟨0, 256, "r"⟩], [],
             [⟨1, 1, 1, 1, 0, 0, 0⟩, ⟨1, 1, 1, 1, 9, 7, 5⟩]⟩)).1.unfinished_records
      = [] ++ t := by
  have h := (C1_load_config_failure_frame ⟨1, 2, 3, 4⟩
      ⟨⟨⟨1, 2, 3, 4⟩, [], [], [], []⟩, [], false⟩
      (some ⟨⟨1, 2, 3, 4⟩, [⟨0, 1024, "b"⟩], [⟨0, 256, "r"⟩], [],
             [⟨1, 1, 1, 1, 0, 0, 0⟩, ⟨1, 1, 1, 1, 9, 7, 5⟩]⟩)).1 (by decide)
  exact ⟨h.1, h.2.2⟩

/-- Decoding inverts encoding on one unfinished entry whenever the
write_loc is well-formed (current at most end, end a size_t value). -/
lemma decode_encode_eq (k : record_key) (l : write_loc)
    (h1 : l.current ≤ l.end_) (h2 : l.end_ < W64) :
    decode_unfinished (encode_unfinished k l) = (k, l) := by
  obtain ⟨a, b, c, d⟩ := k
  obtain ⟨fi, cur, en⟩ := l
  simp only [decode_unfinished, encode_unfinished, Prod.mk.injEq,
    record_key.mk.injEq, write_loc.mk.injEq, and_true, true_and] at *
  unfold W64 at *
  omega

/-- Keys absent from a map are not found by umap_contains. -/
lemma umap_contains_eq_false (m : umap) (k : record_key)
    (h : ∀ p ∈ m, p.1 ≠ k) : umap_contains m k = false := by
  simp only [umap_contains, List.any_eq_false, decide_eq_true_eq]
  exact h

/-- The insertion loop of load_config, fed the rows write_current_config
produces from a well-formed map with distinct keys, rebuilds exactly
that map behind any accumulator whose keys it avoids. -/
lemma load_config_insert_encode (m : umap) :
    ∀ acc : umap,
      (∀ p ∈ m, p.2.current ≤ p.2.end_ ∧ p.2.end_ < W64) →
      ((acc ++ m).map Prod.fst).Nodup →
      load_config_insert (m.map (fun p => encode_unfinished p.1 p.2)) acc
        = (acc ++ m, true) := by
  induction m with
  | nil => intro acc _ _; simp [load_config_insert]
  | cons p rest ih =>
    intro acc hb hnd
    have hdec : decode_unfinished (encode_unfinished p.1 p.2) = (p.1, p.2) :=
      decode_encode_eq p.1 p.2 (hb p (by simp)).1 (hb p (by simp)).2
    have habs : ∀ q ∈ acc, q.1 ≠ p.1 := by
      intro q hq hcontra
      have hperm : ((acc ++ p :: rest).map Prod.fst).Nodup := hnd
      rw [List.map_append, List.nodup_append] at hperm
      exact hperm.2.2 (List.mem_map_of_mem Prod.fst hq) (by simp [hcontra])
    have hcont : umap_contains acc p.1 = false := umap_contains_eq_false acc p.1 habs
    have hrec := ih (acc ++ [(p.1, p.2)])
      (fun q hq => hb q (by simp [hq]))
      (by simpa [List.append_assoc] using hnd)
    simp only [List.map_cons, load_config_insert, hdec, umap_emplace, hcont,
      Bool.false_eq_true, if_false, if_true]
    rw [hrec]
    simp [List.append_assoc]

/-- C8: write_current_config encodes a live unfinished entry as
(key, file_index, offset = current, size = end - current) and
load_config decodes a row as write_loc(file_index, offset, offset + size);
on well-formed entries (current at most end) the composition is the
identity, and the whole unfinished map of a cleanly written sidecar is
rebuilt identically by the load_config insertion loop into a fresh
volume's empty map. -/
theorem C8_unfinished_record_roundtrip :
    (∀ (k : record_key) (l : write_loc), l.current ≤ l.end_ → l.end_ < W64 →
      decode_unfinished (encode_unfinished k l) = (k, l)) ∧
    (∀ m : umap,
      (∀ p ∈ m, p.2.current ≤ p.2.end_ ∧ p.2.end_ < W64) →
      (m.map Prod.fst).Nodup →
      load_config_insert (m.map (fun p => encode_unfinished p.1 p.2)) []
        = (m, true)) := by
  constructor
  · exact fun k l h1 h2 => decode_encode_eq k l h1 h2
  · intro m hb hnd
    simpa using load_config_insert_encode m [] hb (by simpa using hnd)

/-- C8 witness: the round-trip at the sidecar scenario row: key
(1, 1700000000, 42, 1), write_loc (0, 1500000, 1564000), and the
singleton map holding it. -/
theorem C8_witness :
    decode_unfinished (encode_unfinished ⟨1, 1700000000, 42, 1⟩ ⟨0, 1500000, 1564000⟩)
      = (⟨1, 1700000000, 42, 1⟩, ⟨0, 1500000, 1564000⟩) ∧
    load_config_insert
      ([(⟨1, 1700000000, 42, 1⟩, ⟨0, 1500000, 1564000⟩)].map
        (fun p => encode_unfinished p.1 p.2)) []
      = ([(⟨1, 1700000000, 42, 1⟩, ⟨0, 1500000, 1564000⟩)], true) :=
  ⟨C8_unfinished_record_roundtrip.1 ⟨1, 1700000000, 42, 1⟩ ⟨0, 1500000, 1564000⟩
      (by decide) (by decide),
   C8_unfinished_record_roundtrip.2 [(⟨1, 1700000000, 42, 1⟩, ⟨0, 1500000, 1564000⟩)]
      (by decide) (by decide)⟩

/-- Rounding up to a chunk multiple: the quotient of the growth formula
covers delta, is at least one chunk, and is the least such multiple. -/
lemma ceil_mul_spec (delta chunk : Nat) (hc : 0 < chunk) (hd : 0 < delta) :
    delta ≤ (delta + chunk - 1) / chunk * chunk ∧
    1 ≤ (delta + chunk - 1) / chunk ∧
    ∀ k, delta ≤ k * chunk → (delta + chunk - 1) / chunk ≤ k := by
  have hmod : chunk * ((delta + chunk - 1) / chunk) + (delta + chunk - 1) % chunk
      = delta + chunk - 1 := Nat.div_add_mod _ _
  have hmod' : (delta + chunk - 1) / chunk * chunk + (delta + chunk - 1) % chunk
      = delta + chunk - 1 := by rw [Nat.mul_comm] at hmod; exact hmod
  have hr : (delta + chunk - 1) % chunk < chunk := Nat.mod_lt _ hc
  refine ⟨by omega, ?_, ?_⟩
  · rcases Nat.eq_zero_or_pos ((delta + chunk - 1) / chunk) with h0 | h1
    · rw [h0] at hmod'
      simp at hmod'
      omega
    · exact h1
  · intro k hk
    by_contra hlt
    push_neg at hlt
    have hlt' : k + 1 ≤ (delta + chunk - 1) / chunk := hlt
    have h2 : (k + 1) * chunk ≤ (delta + chunk - 1) / chunk * chunk :=
      Nat.mul_le_mul_right _ hlt'
    have h3 : (k + 1) * chunk = k * chunk + chunk := by ring
    omega

/-- C3 counterexample: on a healthy vector with used = 2, capacity = 8,
iter = 0, chunk = 8, reserve(3) returns index 2 (the pre-reserve used)
but sets iter to 5, the POST-reserve used, not to the pre-reserve used
as the claim states. -/
theorem C3_reserve_iter_counterexample :
    (fbv_reserve 1 ⟨2, 8, 0, 8, ⟨⟨3, false⟩, ⟨8, 0⟩⟩, false⟩ 3).2 = some 2 ∧
    (fbv_reserve 1 ⟨2, 8, 0, 8, ⟨⟨3, false⟩, ⟨8, 0⟩⟩, false⟩ 3).1.used = 5 ∧
    (fbv_reserve 1 ⟨2, 8, 0, 8, ⟨⟨3, false⟩, ⟨8, 0⟩⟩, false⟩ 3).1.iter = 5 ∧
    (fbv_reserve 1 ⟨2, 8, 0, 8, ⟨⟨3, false⟩, ⟨8, 0⟩⟩, false⟩ 3).1.iter ≠ 2 := by
  refine ⟨by decide, by decide, by decide, by decide⟩

/-- C3 amended: on a non-error vector with a positive chunk, used + n
not wrapping, and the grown capacity representable, reserve(n) extends
used by n, returns the pre-reserve used, grows the capacity (exactly
when used + n exceeds it) to the smallest capacity + k * chunk with
k at least 1 covering used + n — but sets iter to the POST-reserve used
(pre-reserve used + n), not to the pre-reserve used. -/
theorem C3_reserve_spec (es : Nat) (s : fbv) (count : Nat)
    (herr : s.error = false)
    (hchunk : 0 < s.capacity_chunk_size)
    (hfit : s.used + count < W64)
    (hgrow : s.capacity < s.used + count →
      s.used + count - s.capacity + s.capacity_chunk_size - 1 < W64 ∧
      s.capacity + (s.used + count - s.capacity + s.capacity_chunk_size - 1)
          / s.capacity_chunk_size * s.capacity_chunk_size < W64) :
    (fbv_reserve es s count).2 = some s.used ∧
    (fbv_reserve es s count).1.used = s.used + count ∧
    (fbv_reserve es s count).1.iter = s.used + count ∧
    (fbv_reserve es s count).1.error = false ∧
    (s.used + count ≤ s.capacity → (fbv_reserve es s count).1.capacity = s.capacity) ∧
    (s.capacity < s.used + count →
      s.used + count ≤ (fbv_reserve es s count).1.capacity ∧
      (∃ k, 1 ≤ k ∧ (fbv_reserve es s count).1.capacity
          = s.capacity + k * s.capacity_chunk_size) ∧
      (∀ k, 1 ≤ k → s.used + count ≤ s.capacity + k * s.capacity_chunk_size →
        (fbv_reserve es s count).1.capacity ≤ s.capacity + k * s.capacity_chunk_size)) := by
  have hmodneed : (s.used + count) % W64 = s.used + count := Nat.mod_eq_of_lt hfit
  unfold fbv_reserve fbv_reserve_at
  simp only [herr, Bool.false_eq_true, if_false, hmodneed,
    Nat.not_lt.mpr (Nat.le_add_right s.used count), gt_iff_lt, lt_irrefl]
  by_cases hcap : s.capacity < s.used + count
  · obtain ⟨hg1, hg2⟩ := hgrow hcap
    have hdpos : 0 < s.used + count - s.capacity := by omega
    obtain ⟨hq1, hq2, hq3⟩ :=
      ceil_mul_spec (s.used + count - s.capacity) s.capacity_chunk_size hchunk hdpos
    have hmod1 : (s.used + count - s.capacity + s.capacity_chunk_size - 1) % W64
        = s.used + count - s.capacity + s.capacity_chunk_size - 1 :=
      Nat.mod_eq_of_lt hg1
    have hmul_le : (s.used + count - s.capacity + s.capacity_chunk_size - 1)
        / s.capacity_chunk_size * s.capacity_chunk_size
        ≤ s.used + count - s.capacity + s.capacity_chunk_size - 1 :=
      Nat.div_mul_le_self _ _
    have hmod2 : (s.used + count - s.capacity + s.capacity_chunk_size - 1)
        / s.capacity_chunk_size * s.capacity_chunk_size % W64
        = (s.used + count - s.capacity + s.capacity_chunk_size - 1)
        / s.capacity_chunk_size * s.capacity_chunk_size :=
      Nat.mod_eq_of_lt (lt_of_le_of_lt hmul_le hg1)
    have hmod3 : (s.capacity + (s.used + count - s.capacity + s.capacity_chunk_size - 1)
        / s.capacity_chunk_size * s.capacity_chunk_size) % W64
        = s.capacity + (s.used + count - s.capacity + s.capacity_chunk_size - 1)
        / s.capacity_chunk_size * s.capacity_chunk_size :=
      Nat.mod_eq_of_lt hg2
    have hnc : ¬ (s.capacity + (s.used + count - s.capacity + s.capacity_chunk_size - 1)
        / s.capacity_chunk_size * s.capacity_chunk_size < s.used + count) := by omega
    simp only [hcap, if_true, hmod1, hmod2, hmod3, fd_resize, raii_resize,
      sys_ftruncate, if_neg hnc, decide_True, Bool.not_true, Bool.false_eq_true, if_false]
    refine ⟨trivial, by simp, by simp, trivial,
      fun hle => absurd hle (by omega), fun _ => ⟨by omega, ?_, ?_⟩⟩
    · exact ⟨(s.used + count - s.capacity + s.capacity_chunk_size - 1)
          / s.capacity_chunk_size, hq2, rfl⟩
    · intro k hk1 hkcov
      have := hq3 k (by omega)
      have hmm : (s.used + count - s.capacity + s.capacity_chunk_size - 1)
          / s.capacity_chunk_size * s.capacity_chunk_size ≤ k * s.capacity_chunk_size :=
        Nat.mul_le_mul_right _ this
      omega
  · rw [if_neg hcap]
    refine ⟨rfl, by simp [Nat.max_eq_right (Nat.le_add_right s.used count)],
      by simp [Nat.max_eq_right (Nat.le_add_right s.used count)], rfl,
      fun _ => rfl, fun hlt => absurd hlt hcap⟩

/-- C3 witness: the amended theorem at chunk = 8, used = 5, capacity = 8,
n = 4 (the spec's file-vector extension scenario): reserve returns 5,
used becomes 9, capacity grows to 16 = 8 + 1 * 8, and iter becomes 9. -/
theorem C3_witness :
    (fbv_reserve 4 ⟨5, 8, 5, 8, ⟨⟨3, false⟩, ⟨32, 20⟩⟩, false⟩ 4).2 = some 5 ∧
    (fbv_reserve 4 ⟨5, 8, 5, 8, ⟨⟨3, false⟩, ⟨32, 20⟩⟩, false⟩ 4).1.used = 9 ∧
    (fbv_reserve 4 ⟨5, 8, 5, 8, ⟨⟨3, false⟩, ⟨32, 20⟩⟩, false⟩ 4).1.iter = 9 ∧
    9 ≤ (fbv_reserve 4 ⟨5, 8, 5, 8, ⟨⟨3, false⟩, ⟨32, 20⟩⟩, false⟩ 4).1.capacity ∧
    (∃ k, 1 ≤ k ∧ (fbv_reserve 4 ⟨5, 8, 5, 8, ⟨⟨3, false⟩, ⟨32, 20⟩⟩, false⟩ 4).1.capacity
        = 8 + k * 8) := by
  have h := C3_reserve_spec 4 ⟨5, 8, 5, 8, ⟨⟨3, false⟩, ⟨32, 20⟩⟩, false⟩ 4
    (by decide) (by decide) (by decide) (fun _ => by decide)
  exact ⟨h.1, h.2.1, h.2.2.1, (h.2.2.2.2.2 (by decide)).1, (h.2.2.2.2.2 (by decide)).2.1⟩

/-- C6 counterexample: write_at performs no overflow check on
start + count.  On a healthy vector with used = 1, calling
write_at(start = 1, count = 2^64 - 1) has start + count wrap to 0, yet
the call succeeds (returns the start index) instead of returning an
error. -/
theorem C6_write_at_overflow_counterexample :
    2 ^ 64 ≤ 1 + (2 ^ 64 - 1) ∧
    (fbv_write_at 1 ⟨1, 1, 0, 1, ⟨⟨3, false⟩, ⟨1, 0⟩⟩, false⟩ 1 (2 ^ 64 - 1)).2 = some 1 := by
  constructor
  · decide
  · decide

/-- C6 amended: the overflow detection lives in reserve_at only: reserve
(start = used) and write (start = iter) return null with no state change
when start + count wraps around the machine word; write_at does not
check overflow at all, and read/read_at compare the wrapped sum against
used, so an overflowing request is not reliably rejected there. -/
theorem C6_overflow_detection (es : Nat) (s : fbv) (count : Nat)
    (hused : s.used < W64) (hiter : s.iter < W64) (hcount : count < W64) :
    (W64 ≤ s.used + count → fbv_reserve es s count = (s, none)) ∧
    (W64 ≤ s.iter + count → fbv_write es s count = (s, none)) := by
  constructor
  · intro hov
    have hwrap : (s.used + count) % W64 < s.used := by
      unfold W64 at *
      omega
    unfold fbv_reserve fbv_reserve_at
    by_cases herr : s.error
    · simp [herr]
    · simp [herr, hwrap]
  · intro hov
    have hwrap : (s.iter + count) % W64 < s.iter := by
      unfold W64 at *
      omega
    unfold fbv_write fbv_reserve_at
    by_cases herr : s.error
    · simp [herr]
    · simp [herr, hwrap]

/-- C6 witness: the amended theorem at used = iter = 1, count = 2^64 - 1:
both reserve and write reject the wrapping request and leave the vector
untouched. -/
theorem C6_witness :
    fbv_reserve 1 ⟨1, 1, 1, 1, ⟨⟨3, false⟩, ⟨1, 0⟩⟩, false⟩ (2 ^ 64 - 1)
      = (⟨1, 1, 1, 1, ⟨⟨3, false⟩, ⟨1, 0⟩⟩, false⟩, none) ∧
    fbv_write 1 ⟨1, 1, 1, 1, ⟨⟨3, false⟩, ⟨1, 0⟩⟩, false⟩ (2 ^ 64 - 1)
      = (⟨1, 1, 1, 1, ⟨⟨3, false⟩, ⟨1, 0⟩⟩, false⟩, none) := by
  have h := C6_overflow_detection 1 ⟨1, 1, 1, 1, ⟨⟨3, false⟩, ⟨1, 0⟩⟩, false⟩ (2 ^ 64 - 1)
    (by decide) (by decide) (by decide)
  exact ⟨h.1 (by decide), h.2 (by decide)⟩

/-- C7: a write_at(start, arr, n) on a non-error vector with start within
used succeeds, leaves iter, used and capacity unchanged, keeps the error
bit clear, and leaves the descriptor's seek position at iter * sizeof(T)
(reduced modulo the machine word, as the source computes it). -/
theorem C7_write_at_restores_iter_and_seek (es : Nat) (s : fbv) (start count : Nat)
    (herr : s.error = false) (hle : start ≤ s.used) :
    (fbv_write_at es s start count).2 = some start ∧
    (fbv_write_at es s start count).1.iter = s.iter ∧
    (fbv_write_at es s start count).1.used = s.used ∧
    (fbv_write_at es s start count).1.capacity = s.capacity ∧
    (fbv_write_at es s start count).1.error = false ∧
    (fbv_write_at es s start count).1.file.pf.pos = es * s.iter % W64 := by
  have hnn : ∀ n : Nat, ¬((n : Int) < 0) := fun n => Int.not_lt.2 (Int.natCast_nonneg n)
  unfold fbv_write_at fd_seek fd_write raii_seek raii_write sys_lseek_set sys_write
  simp only [herr, Bool.false_eq_true, if_false, gt_iff_lt, Nat.not_lt.mpr hle,
    hnn, Int.toNat_natCast, eq_self_iff_true, decide_True, Bool.not_true,
    Bool.true_eq_false, if_true]
  simp

/-- C7 witness: concrete write_at(1, arr, 2) on a vector with used = 2,
iter = 2, element size 4: returns 1, keeps iter at 2, and parks the file
offset at 8 = iter * sizeof(T). -/
theorem C7_witness :
    (fbv_write_at 4 ⟨2, 8, 2, 8, ⟨⟨3, false⟩, ⟨32, 0⟩⟩, false⟩ 1 2).2 = some 1 ∧
    (fbv_write_at 4 ⟨2, 8, 2, 8, ⟨⟨3, false⟩, ⟨32, 0⟩⟩, false⟩ 1 2).1.iter = 2 ∧
    (fbv_write_at 4 ⟨2, 8, 2, 8, ⟨⟨3, false⟩, ⟨32, 0⟩⟩, false⟩ 1 2).1.used = 2 ∧
    (fbv_write_at 4 ⟨2, 8, 2, 8, ⟨⟨3, false⟩, ⟨32, 0⟩⟩, false⟩ 1 2).1.capacity = 8 ∧
    (fbv_write_at 4 ⟨2, 8, 2, 8, ⟨⟨3, false⟩, ⟨32, 0⟩⟩, false⟩ 1 2).1.error = false ∧
    (fbv_write_at 4 ⟨2, 8, 2, 8, ⟨⟨3, false⟩, ⟨32, 0⟩⟩, false⟩ 1 2).1.file.pf.pos
      = 4 * 2 % W64 := by
  exact C7_write_at_restores_iter_and_seek 4 ⟨2, 8, 2, 8, ⟨⟨3, false⟩, ⟨32, 0⟩⟩, false⟩ 1 2
    (by decide) (by decide)

/-- wrapping_inc is increment modulo the capacity on in-range positions. -/
lemma wrapping_inc_eq_mod (n cap : Nat) (h : n < cap) :
    wrapping_inc n cap = (n + 1) % cap := by
  unfold wrapping_inc
  by_cases he : n + 1 = cap
  · simp [he]
  · rw [if_neg he, Nat.mod_eq_of_lt (by omega)]

/-- Peeling the front slot off a ring segment. -/
lemma ring_list_succ_front {α : Type} [Inhabited α] (st : List α) (rp cap m : Nat) :
    ring_list st rp cap (m + 1)
      = st.getD (rp % cap) default :: ring_list st (rp + 1) cap m := by
  unfold ring_list
  rw [List.range_succ_eq_map]
  simp only [List.map_cons, List.map_map, Nat.add_zero]
  congr 1
  apply List.map_congr_left
  intro k _
  have h : rp + (k + 1) = rp + 1 + k := by omega
  simp [Function.comp, Nat.succ_eq_add_one, h]

/-- Peeling the back slot off a ring segment. -/
lemma ring_list_succ_back {α : Type} [Inhabited α] (st : List α) (rp cap m : Nat) :
    ring_list st rp cap (m + 1)
      = ring_list st rp cap m ++ [st.getD ((rp + m) % cap) default] := by
  unfold ring_list
  rw [show m + 1 = Nat.succ m from rfl, List.range_succ]
  simp

/-- The starting position of a ring segment may be pre-reduced mod cap. -/
lemma ring_list_mod_start {α : Type} [Inhabited α] (st : List α) (rp cap m : Nat) :
    ring_list st (rp % cap) cap m = ring_list st rp cap m := by
  unfold ring_list
  congr 1
  funext k
  rw [Nat.mod_add_mod]

/-- Setting a slot outside a ring segment leaves the segment unchanged. -/
lemma ring_list_set_ne {α : Type} [Inhabited α] (st : List α) (j : Nat) (v : α)
    (rp cap m : Nat) (h : ∀ k, k < m → (rp + k) % cap ≠ j) :
    ring_list (st.set j v) rp cap m = ring_list st rp cap m := by
  unfold ring_list
  apply List.map_congr_left
  intro k hk
  rw [List.mem_range] at hk
  simp [List.getD, List.getElem?_set_ne (Ne.symm (h k hk))]

/-- Distinct offsets below the size stay distinct modulo the capacity. -/
lemma ring_index_ne (rp k m cap : Nat) (hk : k < m) (hm : m < cap) :
    (rp + k) % cap ≠ (rp + m) % cap := by
  intro he
  have hle : rp + k ≤ rp + m := by omega
  have hdvd : cap ∣ rp + m - (rp + k) := (Nat.modEq_iff_dvd' hle).1 he
  have hsub : rp + m - (rp + k) = m - k := by omega
  rw [hsub] at hdvd
  have := Nat.le_of_dvd (by omega) hdvd
  omega

/-- One completed put preserves the channel invariant and appends the
value to the pending segment exactly when it succeeds. -/
lemma chan_step_put_sound {α : Type} [Inhabited α] (s : chan_sys α) (v : α)
    (hinv : chan_inv s) (hen : put_enabled s = true) :
    chan_inv (chan_step s (.put v)).1 ∧
    chan_pending s ++ (chan_step s (.put v)).2.1
      = (chan_step s (.put v)).2.2 ++ chan_pending (chan_step s (.put v)).1 := by
  obtain ⟨hcap, hlen, hsize, hrp, hwp, hicap, hocap, hiold, hoold⟩ := hinv
  by_cases hc : s.inp.closed
  · simp only [chan_step, in_put, hc, if_true]
    exact ⟨⟨hcap, hlen, hsize, hrp, hwp, hicap, hocap, hiold, hoold⟩, by simp⟩
  · by_cases halive : s.sd.out_alive
    · have hslt : s.sd.size < s.sd.capacity := by
        simp only [put_enabled, hc, halive, Bool.false_or, Bool.not_true,
          Bool.or_false, decide_eq_true_eq] at hen
        omega
      have hpend : ring_list s.sd.storage s.outp.read_pos s.sd.capacity s.sd.size ++ [v]
          = ring_list (s.sd.storage.set s.inp.write_pos v) s.outp.read_pos
              s.sd.capacity (s.sd.size + 1) := by
        rw [hwp, ring_list_succ_back]
        rw [ring_list_set_ne _ _ _ _ _ _
          (fun k hk => ring_index_ne s.outp.read_pos k s.sd.size s.sd.capacity hk hslt)]
        have hin : (s.outp.read_pos + s.sd.size) % s.sd.capacity < s.sd.storage.length := by
          rw [hlen]
          exact Nat.mod_lt _ hcap
        congr 1
        simp [List.getD, List.getElem?_set_self, hin]
      have hwp' : wrapping_inc s.inp.write_pos s.inp.capacity
          = (s.outp.read_pos + (s.sd.size + 1)) % s.sd.capacity := by
        rw [hicap, hwp, wrapping_inc_eq_mod _ _ (Nat.mod_lt _ hcap), Nat.mod_add_mod,
          Nat.add_assoc]
      by_cases hfast : s.inp.old_size < s.inp.capacity
      · simp only [chan_step, in_put, hc, Bool.false_eq_true, if_false, halive,
          decide_eq_true_eq, hfast, if_true]
        constructor
        · unfold chan_inv
          dsimp only
          exact ⟨hcap, by simpa using hlen, by omega, hrp, hwp', hicap, hocap,
            by omega, by omega⟩
        · unfold chan_pending
          dsimp only
          rw [List.nil_append]
          exact hpend
      · simp only [chan_step, in_put, hc, Bool.false_eq_true, if_false, halive,
          decide_eq_true_eq, hfast, if_true]
        constructor
        · unfold chan_inv
          dsimp only
          exact ⟨hcap, by simpa using hlen, by omega, hrp, hwp', hicap, hocap,
            by omega, by omega⟩
        · unfold chan_pending
          dsimp only
          rw [List.nil_append]
          exact hpend
    · have halive' : s.sd.out_alive = false := by
        revert halive
        cases s.sd.out_alive <;> simp
      by_cases hfast : s.inp.old_size < s.inp.capacity
      · have hszlt : s.sd.size < s.sd.capacity := by
          rw [← hicap]
          omega
        simp only [chan_step, in_put, hc, Bool.false_eq_true, if_false, halive',
          decide_eq_true_eq, hfast, if_true]
        constructor
        · unfold chan_inv
          dsimp only
          exact ⟨hcap, by simpa using hlen, hsize, hrp, hwp, hicap, hocap,
            by rw [hicap]; omega, by omega⟩
        · unfold chan_pending
          dsimp only
          rw [List.append_nil, List.nil_append, hwp]
          rw [ring_list_set_ne _ _ _ _ _ _
            (fun k hk => ring_index_ne s.outp.read_pos k s.sd.size s.sd.capacity hk hszlt)]
      · simp only [chan_step, in_put, hc, Bool.false_eq_true, if_false, halive',
          decide_eq_true_eq, hfast, if_true]
        constructor
        · unfold chan_inv
          dsimp only
          exact ⟨hcap, hlen, hsize, hrp, hwp, hicap, hocap,
            by rw [hicap]; omega, by omega⟩
        · unfold chan_pending
          dsimp only
          rw [List.append_nil, List.nil_append]

/-- One completed get preserves the channel invariant and pops the front
of the pending segment exactly when it returns a value. -/
lemma chan_step_get_sound {α : Type} [Inhabited α] (s : chan_sys α)
    (hinv : chan_inv s) :
    chan_inv (chan_step s .get).1 ∧
    chan_pending s ++ (chan_step s .get).2.1
      = (chan_step s .get).2.2 ++ chan_pending (chan_step s .get).1 := by
  obtain ⟨hcap, hlen, hsize, hrp, hwp, hicap, hocap, hiold, hoold⟩ := hinv
  by_cases hc : s.outp.closed
  · simp only [chan_step, out_get, hc, if_true]
    exact ⟨⟨hcap, hlen, hsize, hrp, hwp, hicap, hocap, hiold, hoold⟩, by simp⟩
  · by_cases hs : 0 < s.sd.size
    · have hfa : (if 0 < s.outp.old_size
            then some (s.sd.storage.getD s.outp.read_pos default)
            else none).getD (s.sd.storage.getD s.outp.read_pos default)
          = s.sd.storage.getD s.outp.read_pos default := by
        split <;> rfl
      have hfront : ring_list s.sd.storage s.outp.read_pos s.sd.capacity s.sd.size
          = s.sd.storage.getD s.outp.read_pos default
            :: ring_list s.sd.storage (s.outp.read_pos + 1) s.sd.capacity (s.sd.size - 1) := by
        conv_lhs => rw [show s.sd.size = s.sd.size - 1 + 1 from by omega]
        rw [ring_list_succ_front, Nat.mod_eq_of_lt hrp]
      have hrp' : wrapping_inc s.outp.read_pos s.outp.capacity
          = (s.outp.read_pos + 1) % s.sd.capacity := by
        rw [hocap, wrapping_inc_eq_mod _ _ hrp]
      have hwp2 : s.inp.write_pos
          = ((s.outp.read_pos + 1) % s.sd.capacity + (s.sd.size - 1)) % s.sd.capacity := by
        rw [Nat.mod_add_mod, hwp]
        congr 1
        omega
      simp only [chan_step, out_get, hc, Bool.false_eq_true, if_false, hs, if_true, hfa]
      constructor
      · unfold chan_inv
        dsimp only
        exact ⟨hcap, hlen, by omega, by rw [hrp']; exact Nat.mod_lt _ hcap,
          by rw [hrp']; exact hwp2, hicap, hocap, by omega, by omega⟩
      · unfold chan_pending
        dsimp only
        rw [List.append_nil, hfront, hrp', ring_list_mod_start]
        rfl
    · have hsz0 : s.sd.size = 0 := by omega
      have hoz : s.outp.old_size = 0 := by omega
      simp only [chan_step, out_get, hc, Bool.false_eq_true, if_false, hs, if_true,
        hoz, lt_self_iff_false]
      constructor
      · unfold chan_inv
        dsimp only
        exact ⟨hcap, hlen, hsize, hrp, hwp, hicap, hocap, hiold, by omega⟩
      · unfold chan_pending
        dsimp only
        rw [List.append_nil, List.nil_append]

/-- Closing the producer preserves the invariant and the pending segment. -/
lemma chan_step_close_in_sound {α : Type} [Inhabited α] (s : chan_sys α)
    (hinv : chan_inv s) :
    chan_inv (chan_step s .close_in).1 ∧
    chan_pending s ++ (chan_step s .close_in).2.1
      = (chan_step s .close_in).2.2 ++ chan_pending (chan_step s .close_in).1 := by
  obtain ⟨hcap, hlen, hsize, hrp, hwp, hicap, hocap, hiold, hoold⟩ := hinv
  by_cases hc : s.inp.closed
  · simp only [chan_step, in_close, hc, if_true]
    exact ⟨⟨hcap, hlen, hsize, hrp, hwp, hicap, hocap, hiold, hoold⟩, by simp⟩
  · simp only [chan_step, in_close, hc, Bool.false_eq_true, if_false]
    exact ⟨⟨hcap, hlen, hsize, hrp, hwp, hicap, hocap, hiold, hoold⟩, by simp [chan_pending]⟩

/-- Closing the consumer preserves the invariant and the pending segment. -/
lemma chan_step_close_out_sound {α : Type} [Inhabited α] (s : chan_sys α)
    (hinv : chan_inv s) :
    chan_inv (chan_step s .close_out).1 ∧
    chan_pending s ++ (chan_step s .close_out).2.1
      = (chan_step s .close_out).2.2 ++ chan_pending (chan_step s .close_out).1 := by
  obtain ⟨hcap, hlen, hsize, hrp, hwp, hicap, hocap, hiold, hoold⟩ := hinv
  by_cases hc : s.outp.closed
  · simp only [chan_step, out_close, hc, if_true]
    exact ⟨⟨hcap, hlen, hsize, hrp, hwp, hicap, hocap, hiold, hoold⟩, by simp⟩
  · simp only [chan_step, out_close, hc, Bool.false_eq_true, if_false]
    exact ⟨⟨hcap, hlen, hsize, hrp, hwp, hicap, hocap, hiold, hoold⟩, by simp [chan_pending]⟩

/-- Any enabled operation preserves the invariant, and its put/get
emissions relate the pending segments before and after. -/
lemma chan_step_sound {α : Type} [Inhabited α] (s : chan_sys α) (op : chan_op α)
    (hinv : chan_inv s) (hen : op_enabled s op = true) :
    chan_inv (chan_step s op).1 ∧
    chan_pending s ++ (chan_step s op).2.1
      = (chan_step s op).2.2 ++ chan_pending (chan_step s op).1 := by
  cases op with
  | put v => exact chan_step_put_sound s v hinv hen
  | get => exact chan_step_get_sound s hinv
  | close_in => exact chan_step_close_in_sound s hinv
  | close_out => exact chan_step_close_out_sound s hinv

/-- Running any valid trace preserves the invariant, and the successful
put emissions equal the get returns followed by the still-pending
segment. -/
lemma chan_run_sound {α : Type} [Inhabited α] :
    ∀ (ops : List (chan_op α)) (s : chan_sys α),
      chan_inv s → valid_trace s ops = true →
      chan_inv (chan_run s ops).1 ∧
      chan_pending s ++ (chan_run s ops).2.1
        = (chan_run s ops).2.2 ++ chan_pending (chan_run s ops).1 := by
  intro ops
  induction ops with
  | nil =>
    intro s hinv _
    exact ⟨hinv, by simp [chan_run]⟩
  | cons op rest ih =>
    intro s hinv hval
    simp only [valid_trace, Bool.and_eq_true] at hval
    obtain ⟨hen, hval'⟩ := hval
    obtain ⟨hinv1, hpend1⟩ := chan_step_sound s op hinv hen
    obtain ⟨hinv2, hpend2⟩ := ih (chan_step s op).1 hinv1 hval'
    constructor
    · simpa only [chan_run] using hinv2
    · simp only [chan_run]
      rw [← List.append_assoc, hpend1, List.append_assoc, hpend2, ← List.append_assoc]

/-- The freshly created channel satisfies the invariant with an empty
pending segment. -/
lemma init_sys_inv (α : Type) [Inhabited α] (capacity : Nat) :
    chan_inv (init_sys α capacity) ∧ chan_pending (init_sys α capacity) = [] := by
  unfold init_sys CreateBufferedChannel in_ctor out_ctor chan_inv chan_pending ring_list
  by_cases h : capacity = 0 <;> simp [h] <;> omega

/-- A drained channel whose producer has died answers the next get with
end of stream: the call completes without waiting and returns no value. -/
lemma chan_get_end_of_stream {α : Type} [Inhabited α] (s : chan_sys α)
    (hinv : chan_inv s) (hdead : s.sd.in_alive = false) (hempty : s.sd.size = 0) :
    get_enabled s = true ∧ (chan_step s .get).2.2 = [] := by
  obtain ⟨hcap, hlen, hsize, hrp, hwp, hicap, hocap, hiold, hoold⟩ := hinv
  constructor
  · simp [get_enabled, hdead]
  · by_cases hc : s.outp.closed
    · simp [chan_step, out_get, hc]
    · have hoz : s.outp.old_size = 0 := by omega
      simp [chan_step, out_get, hc, hempty, hoz]

/-- C2: over every valid interleaving of completed put/get/close calls on
a freshly created channel, the values returned by gets form a prefix of
the successfully put values (same order, no duplicates, no losses); once
the buffer is drained the two sequences coincide; and when the producer
is dead and the buffer drained, the next get completes without waiting
and returns end of stream. -/
theorem C2_channel_fifo_order (α : Type) [Inhabited α] (capacity : Nat)
    (ops : List (chan_op α))
    (hval : valid_trace (init_sys α capacity) ops = true) :
    (∃ t, (chan_run (init_sys α capacity) ops).2.2 ++ t
        = (chan_run (init_sys α capacity) ops).2.1) ∧
    ((chan_run (init_sys α capacity) ops).1.sd.size = 0 →
      (chan_run (init_sys α capacity) ops).2.2
        = (chan_run (init_sys α capacity) ops).2.1) ∧
    ((chan_run (init_sys α capacity) ops).1.sd.in_alive = false →
      (chan_run (init_sys α capacity) ops).1.sd.size = 0 →
      get_enabled (chan_run (init_sys α capacity) ops).1 = true ∧
      (chan_step (chan_run (init_sys α capacity) ops).1 .get).2.2 = []) := by
  obtain ⟨hinv0, hpend0⟩ := init_sys_inv α capacity
  obtain ⟨hinvf, hrel⟩ := chan_run_sound ops (init_sys α capacity) hinv0 hval
  rw [hpend0, List.nil_append] at hrel
  refine ⟨⟨chan_pending (chan_run (init_sys α capacity) ops).1, hrel.symm⟩, ?_, ?_⟩
  · intro hempty
    have hp : chan_pending (chan_run (init_sys α capacity) ops).1 = [] := by
      unfold chan_pending ring_list
      rw [hempty]
      simp
    rw [hp, List.append_nil] at hrel
    exact hrel.symm
  · intro hdead hempty
    exact chan_get_end_of_stream _ hinvf hdead hempty

/-- C2 witness: the spec's happy-path scenario at capacity 2: puts of
10, 20, 30 interleaved with three gets, then a producer close and a
final get; the trace is valid, the gets return exactly 10, 20, 30, and
the last get reports end of stream. -/
theorem C2_witness :
    valid_trace (init_sys Nat 2)
      [chan_op.put 10, chan_op.get, chan_op.put 20, chan_op.put 30, chan_op.get,
       chan_op.get, chan_op.close_in, chan_op.get] = true ∧
    (chan_run (init_sys Nat 2)
      [chan_op.put 10, chan_op.get, chan_op.put 20, chan_op.put 30, chan_op.get,
       chan_op.get, chan_op.close_in, chan_op.get]).2.2 = [10, 20, 30] ∧
    (∃ t, (chan_run (init_sys Nat 2)
      [chan_op.put 10, chan_op.get, chan_op.put 20, chan_op.put 30, chan_op.get,
       chan_op.get, chan_op.close_in, chan_op.get]).2.2 ++ t
        = (chan_run (init_sys Nat 2)
      [chan_op.put 10, chan_op.get, chan_op.put 20, chan_op.put 30, chan_op.get,
       chan_op.get, chan_op.close_in, chan_op.get]).2.1) :=
  ⟨by decide, by decide,
   (C2_channel_fifo_order Nat 2
      [chan_op.put 10, chan_op.get, chan_op.put 20, chan_op.put 30, chan_op.get,
       chan_op.get, chan_op.close_in, chan_op.get] (by decide)).1⟩
